import Mathlib

/-!
Shallow embedding of the geocaching game from src/unnamed/part_000
(the final iteration of the CMPM-121 demo).  JavaScript numbers are
modelled as exact rationals, the JavaScript `Map` objects as
insertion-ordered association lists, and the DOM / Leaflet marker
plumbing (explicitly excluded by the spec) is dropped.  The JSON layer
of persistence is modelled structurally: a stored document is either
missing, malformed (JSON.parse fails), or a well-typed state record.
-/

namespace Geocache

open scoped List

/-- TILE_DEGREES = 0.0001 from the source. -/
def TILE_DEGREES : ℚ := 1 / 10000

/-- NEIGHBORHOOD_SIZE = 8 from the source. -/
def NEIGHBORHOOD_SIZE : Nat := 8

/-- CACHE_SPAWN_PROBABILITY = 0.1 from the source. -/
def CACHE_SPAWN_PROBABILITY : ℚ := 1 / 10

/-- Grid cell interface from the source: integer coordinates. -/
structure Cell where
  i : Int
  j : Int
deriving DecidableEq, Repr

/-- Coin interface from the source: identity is (cell, serial). -/
structure Coin where
  cell : Cell
  serial : Int
deriving DecidableEq, Repr

/-- Cache interface from the source, minus the Leaflet marker (UI only). -/
structure Cache where
  cell : Cell
  coins : List Coin
deriving DecidableEq, Repr

/-- The string key the source builds for a cell with the template
literal i-comma-j; used for both the caches map and the knownTiles map. -/
def cellKey (c : Cell) : String := toString c.i ++ "," ++ toString c.j

/-- The seed string for the spawn decision at a cell: cache_at_ prefixed
to the cell key, as in generateCaches. -/
def spawnKey (c : Cell) : String := "cache_at_" ++ toString c.i ++ "," ++ toString c.j

/-- The seed string for the coin count at a cell, as in generateCoinsForCell. -/
def coinsKey (c : Cell) : String := toString c.i ++ "," ++ toString c.j ++ ",coins"

/-- Modelled from the spec: the deterministic hash function of luck.ts,
which is imported by the source but absent from src/.  Per the spec it
takes a string key and returns a float in [0,1); it is modelled as an
arbitrary pure function from strings to rationals, with its range
constraint taken as a hypothesis where needed. -/
def LuckFn : Type := String → ℚ

/-- First-match lookup in an insertion-ordered association list, the
behaviour of JavaScript Map.get (a real Map has distinct keys, on which
first-match agrees with the unique match). -/
def lookupEntry {α : Type} (m : List (String × α)) (k : String) : Option α :=
  (m.find? (fun e => e.1 = k)).map (fun e => e.2)

/-- Map.set: replace the value at the first matching key (keeping its
position, as JavaScript Map does), or append a new entry at the end. -/
def setEntry {α : Type} : List (String × α) → String → α → List (String × α)
  | [], k, v => [(k, v)]
  | e :: es, k, v => if e.1 = k then (k, v) :: es else e :: setEntry es k v

/-- The mutable module-level game state of the source: the caches map,
the knownTiles map, the player's coin inventory, the player position and
the location history.  Leaflet-only state (markers, polyline) is dropped. -/
structure GameState where
  caches : List (String × Cache)
  knownTiles : List (String × Cell)
  playerCoins : List Coin
  playerLat : ℚ
  playerLng : ℚ
  locationHistory : List (ℚ × ℚ)
deriving DecidableEq, Repr

/-- latLngToCell from the source: floor-divide by the tile size, register
the cell in knownTiles on first sight, and return the registered cell.
The source's non-null assertion on the final get is rendered by getD with
the freshly built cell (the default is never reached). -/
def latLngToCell (lat lng : ℚ) (knownTiles : List (String × Cell)) :
    Cell × List (String × Cell) :=
  let i : Int := ⌊lat / TILE_DEGREES⌋
  let j : Int := ⌊lng / TILE_DEGREES⌋
  let key : String := cellKey ⟨i, j⟩
  let knownTiles' :=
    if (lookupEntry knownTiles key).isSome then knownTiles
    else setEntry knownTiles key ⟨i, j⟩
  ((lookupEntry knownTiles' key).getD ⟨i, j⟩, knownTiles')

/-- generateCoinsForCell from the source: the coin count is the floor of
luck of the coins key times 10, and serials run upward from 0. -/
def generateCoinsForCell (luck : LuckFn) (cell : Cell) : List Coin :=
  let coinCount : Int := ⌊luck (coinsKey cell) * 10⌋
  (List.range coinCount.toNat).map (fun (serial : Nat) => (⟨cell, (serial : Int)⟩ : Coin))

/-- createCache from the source, minus marker/popup creation: generate
the coins for the cell and set the cache in the caches map under the
cell's key.  The lat/lng arguments only feed the marker and are unused here. -/
def createCache (luck : LuckFn) (cell : Cell) (_lat _lng : ℚ) (s : GameState) :
    GameState :=
  let coins := generateCoinsForCell luck cell
  { s with caches := setEntry s.caches (cellKey cell) ⟨cell, coins⟩ }

/-- The body of the double loop of generateCaches for one offset pair
(i, j): locate the cell for the offset position, then create a cache
there when none exists and the seeded spawn check passes. -/
def generateCachesStep (luck : LuckFn) (centerLat centerLng : ℚ) (i j : Int)
    (s : GameState) : GameState :=
  let lat := centerLat + (i : ℚ) * TILE_DEGREES
  let lng := centerLng + (j : ℚ) * TILE_DEGREES
  let p := latLngToCell lat lng s.knownTiles
  let s' := { s with knownTiles := p.2 }
  let cell := p.1
  let cacheId := cellKey cell
  if (lookupEntry s'.caches cacheId).isNone ∧
      luck (spawnKey cell) < CACHE_SPAWN_PROBABILITY then
    createCache luck cell lat lng s'
  else s'

/-- The offsets -NEIGHBORHOOD_SIZE .. NEIGHBORHOOD_SIZE walked by each
of the two nested loops of generateCaches. -/
def neighborhoodOffsets : List Int :=
  (List.range (2 * NEIGHBORHOOD_SIZE + 1)).map
    (fun (k : Nat) => (k : Int) - (NEIGHBORHOOD_SIZE : Int))

/-- generateCaches from the source: the nested loops over the square
neighborhood around the given center. -/
def generateCaches (luck : LuckFn) (centerLat centerLng : ℚ) (s : GameState) :
    GameState :=
  neighborhoodOffsets.foldl
    (fun s i =>
      neighborhoodOffsets.foldl
        (fun s j => generateCachesStep luck centerLat centerLng i j s) s)
    s

/-- The (i, j) offset pairs of the nested generateCaches loops, in
iteration order. -/
def offsetPairs : List (Int × Int) := neighborhoodOffsets ×ˢ neighborhoodOffsets

/-- collectCoins from the source: if a cache exists at the cell and has
coins, append them all to the player's inventory and empty the cache.
The popup/inventory redraw and the saveGameState call mutate no
in-memory game state. -/
def collectCoins (cell : Cell) (s : GameState) : GameState :=
  let cacheId := cellKey cell
  match lookupEntry s.caches cacheId with
  | some cache =>
    if cache.coins.length > 0 then
      { s with
        playerCoins := s.playerCoins ++ cache.coins
        caches := setEntry s.caches cacheId { cache with coins := [] } }
    else s
  | none => s

/-- depositCoins from the source: if a cache exists at the cell and the
player holds coins, append them all to the cache and empty the inventory. -/
def depositCoins (cell : Cell) (s : GameState) : GameState :=
  let cacheId := cellKey cell
  match lookupEntry s.caches cacheId with
  | some cache =>
    if s.playerCoins.length > 0 then
      { s with
        playerCoins := []
        caches := setEntry s.caches cacheId
          { cache with coins := cache.coins ++ s.playerCoins } }
    else s
  | none => s

/-- One persisted cache record of the saved document: the lat/lng the
source derives from the cell, and the memento.  The memento is the
JSON-encoded coin list; JSON encoding of a coin array is modelled
structurally (stringify followed by parse is the identity on it). -/
structure SavedCache where
  lat : ℚ
  lng : ℚ
  memento : List Coin
deriving DecidableEq, Repr

/-- The persisted gameState document written by saveGameState. -/
structure SavedState where
  playerLat : ℚ
  playerLng : ℚ
  playerCoins : List Coin
  locationHistory : List (ℚ × ℚ)
  caches : List SavedCache
deriving DecidableEq, Repr

/-- toMemento from the source: JSON.stringify of the coin list, modelled
structurally as the list itself. -/
def toMemento (c : Cache) : List Coin := c.coins

/-- fromMemento from the source: overwrite the coins with the parsed
memento. -/
def fromMemento (c : Cache) (m : List Coin) : Cache := { c with coins := m }

/-- saveGameState from the source: snapshot position, inventory, history
and, for every cache in map order, its derived lat/lng and its memento. -/
def saveGameState (s : GameState) : SavedState :=
  { playerLat := s.playerLat
    playerLng := s.playerLng
    playerCoins := s.playerCoins
    locationHistory := s.locationHistory
    caches := s.caches.map (fun e =>
      { lat := (e.2.cell.i : ℚ) * TILE_DEGREES
        lng := (e.2.cell.j : ℚ) * TILE_DEGREES
        memento := toMemento e.2 }) }

/-- The forEach callback of loadGameState restoring one saved cache
record: its cell is recovered through latLngToCell (registering it in
knownTiles), a cache with an empty default coin list is built, its coins
are overwritten from the memento, and it is set in the caches map. -/
def restoreCache (st : GameState) (m : SavedCache) : GameState :=
  let p := latLngToCell m.lat m.lng st.knownTiles
  let cell := p.1
  let cache := fromMemento { cell := cell, coins := [] } m.memento
  { st with
    knownTiles := p.2
    caches := setEntry st.caches (cellKey cell) cache }

/-- The restore loop of loadGameState: fold restoreCache over the saved
cache records after resetting position, inventory, history and clearing
the caches map. -/
def loadFromDoc (doc : SavedState) (s : GameState) : GameState :=
  let s1 : GameState :=
    { s with
      playerLat := doc.playerLat
      playerLng := doc.playerLng
      playerCoins := doc.playerCoins
      locationHistory := s.locationHistory ++ doc.locationHistory
      caches := [] }
  doc.caches.foldl restoreCache s1

/-- The content of the persisted store under the gameState key, as seen
through JSON.parse: absent (getItem returned null or empty), present but
malformed (JSON.parse raises SyntaxError), or a well-typed document. -/
inductive StoredDoc where
  | missing : StoredDoc
  | malformed : String → StoredDoc
  | valid : SavedState → StoredDoc
deriving DecidableEq, Repr

/-- loadGameState from the source: absent document generates a fresh
neighborhood around the current player position; a present document is
parsed (a malformed one makes JSON.parse raise, modelled as Except.error,
which the source does not catch) and then restored verbatim. -/
def loadGameState (luck : LuckFn) (stored : StoredDoc) (s : GameState) :
    Except String GameState :=
  match stored with
  | .missing => .ok (generateCaches luck s.playerLat s.playerLng s)
  | .malformed _ => .error "SyntaxError: JSON.parse: unexpected input"
  | .valid doc => .ok (loadFromDoc doc s)

/-- The ledger operations a popup can trigger. -/
inductive Op where
  | collect : Cell → Op
  | deposit : Cell → Op
deriving DecidableEq, Repr

/-- Apply one ledger operation. -/
def applyOp (s : GameState) (op : Op) : GameState :=
  match op with
  | .collect c => collectCoins c s
  | .deposit c => depositCoins c s

/-- Apply a sequence of ledger operations in order. -/
def applyOps (ops : List Op) (s : GameState) : GameState :=
  ops.foldl applyOp s

/-- All coins held by the caches map, in map and list order. -/
def cachesCoins (m : List (String × Cache)) : List Coin :=
  (m.map (fun e => e.2.coins)).flatten

/-- Every coin in the system: the player's inventory followed by every
cache's coins. -/
def allCoins (s : GameState) : List Coin :=
  s.playerCoins ++ cachesCoins s.caches

/-- The total number of coins in the system. -/
def totalCoins (s : GameState) : Nat := (allCoins s).length

/-- Each coin value occurs in at most one place systemwide, so a coin
belongs to exactly one of a cache's list or the player's inventory. -/
def coinPartition (s : GameState) : Prop := (allCoins s).Nodup

instance (s : GameState) : Decidable (coinPartition s) := by
  unfold coinPartition
  infer_instance

/-- The knownTiles map is well formed: every entry is registered under
its own cell's key.  True of every reachable state, since latLngToCell
is the only writer. -/
def tilesWF (tiles : List (String × Cell)) : Prop :=
  ∀ e ∈ tiles, e.1 = cellKey e.2

instance (tiles : List (String × Cell)) : Decidable (tilesWF tiles) := by
  unfold tilesWF
  infer_instance

/-- The caches map is well formed: every cache is keyed by its own
cell's key, and keys are distinct (JavaScript Map keys are unique). -/
def cachesWF (m : List (String × Cache)) : Prop :=
  (∀ e ∈ m, e.1 = cellKey e.2.cell) ∧ (m.map (fun e => e.1)).Nodup

instance (m : List (String × Cache)) : Decidable (cachesWF m) := by
  unfold cachesWF
  infer_instance

/-- A well-formed game state, the shape every reachable state has. -/
def GameState.WF (s : GameState) : Prop :=
  tilesWF s.knownTiles ∧ cachesWF s.caches

instance (s : GameState) : Decidable s.WF := by
  unfold GameState.WF
  infer_instance

/-- The cell the loop body of generateCaches reaches at offset (i, j)
from the given center (over exact arithmetic, flooring the offset
position lands on the center's cell shifted by the offset). -/
def cellOf (centerLat centerLng : ℚ) (i j : Int) : Cell :=
  ⟨⌊centerLat / TILE_DEGREES⌋ + i, ⌊centerLng / TILE_DEGREES⌋ + j⟩

/-- The square neighborhood of cells the generateCaches loops cover. -/
def inNeighborhood (centerLat centerLng : ℚ) (c : Cell) : Prop :=
  |c.i - ⌊centerLat / TILE_DEGREES⌋| ≤ (NEIGHBORHOOD_SIZE : Int) ∧
  |c.j - ⌊centerLng / TILE_DEGREES⌋| ≤ (NEIGHBORHOOD_SIZE : Int)

instance (centerLat centerLng : ℚ) (c : Cell) :
    Decidable (inNeighborhood centerLat centerLng c) := by
  unfold inNeighborhood
  infer_instance

/-- A sample cell at the grid origin, for concrete witnesses. -/
def cellA : Cell := ⟨0, 0⟩

/-- A second sample cell, distinct from cellA. -/
def cellB : Cell := ⟨1, 1⟩

/-- A sample coin minted at cellB. -/
def coinA : Coin := ⟨cellB, 0⟩

/-- A sample coin minted at cellA. -/
def coinB : Coin := ⟨cellA, 0⟩

/-- A small well-formed game state: one cache at cellA holding coinB,
the player holding coinA. -/
def stateA : GameState :=
  { caches := [(cellKey cellA, ⟨cellA, [coinB]⟩)]
    knownTiles := []
    playerCoins := [coinA]
    playerLat := 0
    playerLng := 0
    locationHistory := [] }

/-- stateA with an empty player inventory. -/
def stateB : GameState := { stateA with playerCoins := [] }

/-- A sample luck function that never passes the spawn threshold. -/
def luckHalf : LuckFn := fun _ => 1 / 2

/-! ### Binary64 arithmetic

JavaScript numbers are IEEE-754 binary64 values, and the exact-rational
embedding above idealises them.  Where a claim's truth depends on the
program's actual rounding — the grid-mapper quotient, the lat/lng
products written by saveGameState, the offset sums of generateCaches —
the computations are re-modelled here exactly: a finite double is a
dyadic rational m * 2^e, and every operation rounds its exact result to
53 significant bits, round-to-nearest with ties to even.  Overflow and
subnormals cannot occur at the magnitudes involved and are not
modelled. -/

/-- Fuelled helper for the binary length of a natural number; the fuel
only bounds the recursion depth, and n itself always suffices. -/
def bitLenAux : Nat → Nat → Nat
  | 0, _ => 0
  | fuel + 1, n => if n = 0 then 0 else bitLenAux fuel (n / 2) + 1

/-- Binary length of a natural number (0 for 0). -/
def bitLen (n : Nat) : Nat := bitLenAux n n

/-- A finite IEEE-754 binary64 value, represented exactly as m * 2^e. -/
structure DFloat where
  m : Int
  e : Int
deriving DecidableEq, Repr

/-- Round the rational n / d to the nearest binary64 value, ties to
even: the exponent is located from the bit lengths of numerator and
denominator, the quotient is split at the 53-bit position, and the
mantissa is incremented according to the rounding rule. -/
def roundRat (n d : Int) : DFloat :=
  if n = 0 then ⟨0, 0⟩ else
  let a : Nat := n.natAbs
  let b : Nat := d.natAbs
  let t : Int := (bitLen a : Int) - (bitLen b : Int)
  let L : Int := if b * 2 ^ t.toNat ≤ a * 2 ^ (-t).toNat then t else t - 1
  let e : Int := L - 52
  let num : Nat := a * 2 ^ (-e).toNat
  let den : Nat := b * 2 ^ e.toNat
  let m0 : Nat := num / den
  let r : Nat := num % den
  let m : Nat :=
    if den < 2 * r then m0 + 1
    else if 2 * r < den then m0
    else if m0 % 2 = 0 then m0 else m0 + 1
  let sgn : Int := if (n < 0) ↔ (d < 0) then 1 else -1
  ⟨sgn * (m : Int), e⟩

/-- Correctly rounded binary64 sum. -/
def addD (x y : DFloat) : DFloat :=
  let e : Int := min x.e y.e
  let s : Int := x.m * 2 ^ (x.e - e).toNat + y.m * 2 ^ (y.e - e).toNat
  if 0 ≤ e then roundRat (s * 2 ^ e.toNat) 1 else roundRat s (2 ^ (-e).toNat)

/-- Correctly rounded binary64 product. -/
def mulD (x y : DFloat) : DFloat :=
  let e : Int := x.e + y.e
  if 0 ≤ e then roundRat (x.m * y.m * 2 ^ e.toNat) 1
  else roundRat (x.m * y.m) (2 ^ (-e).toNat)

/-- Correctly rounded binary64 quotient. -/
def divD (x y : DFloat) : DFloat :=
  let e : Int := x.e - y.e
  if 0 ≤ e then roundRat (x.m * 2 ^ e.toNat) y.m
  else roundRat x.m (y.m * 2 ^ (-e).toNat)

/-- Math.floor on a binary64 value; exact, no rounding involved. -/
def floorD (x : DFloat) : Int :=
  if 0 ≤ x.e then x.m * 2 ^ x.e.toNat else Int.fdiv x.m (2 ^ (-x.e).toNat)

/-- An integer as a binary64 value, exact for the cell rows used here,
whose magnitudes stay far below 2^53. -/
def ofIntD (n : Int) : DFloat := ⟨n, 0⟩

/-- The double the runtime stores for the literal 0.0001: TILE_DEGREES
as the program actually holds it. -/
def TILE_DEGREES_D : DFloat := roundRat 1 10000

/-- The row index latLngToCell computes in the program's binary64
arithmetic: Math.floor(lat / TILE_DEGREES) with a correctly rounded
binary64 division. -/
def latLngToCellRow (lat : DFloat) : Int := floorD (divD lat TILE_DEGREES_D)

/-- The lat value saveGameState writes for a cache at cell row i: the
binary64 product cell.i * TILE_DEGREES. -/
def savedLat (i : Int) : DFloat := mulD (ofIntD i) TILE_DEGREES_D

/-- The cell row the generateCaches loop body reaches at row offset k in
binary64 arithmetic: latLngToCell(centerLat + k * TILE_DEGREES, _). -/
def visitedRow (centerLat : DFloat) (k : Int) : Int :=
  latLngToCellRow (addD centerLat (mulD (ofIntD k) TILE_DEGREES_D))

/-! ### Injectivity of the decimal key strings

The source keys its maps by the template string i-comma-j.  Correctness
of the map operations rests on this key being injective on cells, which
in turn rests on decimal printing of integers being injective and never
producing a comma.  These facts are proved here for the core printer
used by toString. -/

/-- Value of a decimal digit character. -/
def digitVal (c : Char) : Nat := c.toNat - 48

/-- Value of a big-endian decimal digit string. -/
def digitsVal (l : List Char) : Nat :=
  l.foldl (fun a c => a * 10 + digitVal c) 0

/-- The ten decimal digit characters. -/
def isDigitCh (c : Char) : Prop :=
  c = '0' ∨ c = '1' ∨ c = '2' ∨ c = '3' ∨ c = '4' ∨
  c = '5' ∨ c = '6' ∨ c = '7' ∨ c = '8' ∨ c = '9'

instance (c : Char) : Decidable (isDigitCh c) := by
  unfold isDigitCh
  infer_instance

theorem digitChar_isDigit (m : Nat) (h : m < 10) : isDigitCh (Nat.digitChar m) := by
  interval_cases m <;> decide

theorem digitVal_digitChar (m : Nat) (h : m < 10) : digitVal (Nat.digitChar m) = m := by
  interval_cases m <;> decide

theorem toDigitsCore_append (b f : Nat) :
    ∀ (n : Nat) (ds : List Char),
      Nat.toDigitsCore b f n ds = Nat.toDigitsCore b f n [] ++ ds := by
  induction f with
  | zero => intro n ds; simp [Nat.toDigitsCore]
  | succ f ih =>
    intro n ds
    simp only [Nat.toDigitsCore]
    by_cases h : n / b = 0
    · simp [h]
    · rw [if_neg h, if_neg h, ih (n / b) [Nat.digitChar (n % b)],
        ih (n / b) (Nat.digitChar (n % b) :: ds), List.append_assoc]
      rfl

theorem toDigitsCore_digits (f : Nat) :
    ∀ n, ∀ c ∈ Nat.toDigitsCore 10 f n [], isDigitCh c := by
  induction f with
  | zero => intro n c hc; simp [Nat.toDigitsCore] at hc
  | succ f ih =>
    intro n c hc
    simp only [Nat.toDigitsCore] at hc
    by_cases h : n / 10 = 0
    · rw [if_pos h] at hc
      simp at hc
      subst hc
      exact digitChar_isDigit _ (Nat.mod_lt _ (by norm_num))
    · rw [if_neg h, toDigitsCore_append] at hc
      rcases List.mem_append.mp hc with h1 | h1
      · exact ih _ _ h1
      · simp at h1
        subst h1
        exact digitChar_isDigit _ (Nat.mod_lt _ (by norm_num))

theorem digitsVal_append (l : List Char) (c : Char) :
    digitsVal (l ++ [c]) = digitsVal l * 10 + digitVal c := by
  simp [digitsVal, List.foldl_append]

theorem toDigitsCore_val (f : Nat) :
    ∀ n, n < f → digitsVal (Nat.toDigitsCore 10 f n []) = n := by
  induction f with
  | zero => intro n h; exact absurd h (Nat.not_lt_zero n)
  | succ f ih =>
    intro n h
    simp only [Nat.toDigitsCore]
    by_cases h0 : n / 10 = 0
    · rw [if_pos h0]
      have h10 : n < 10 := by omega
      have : digitsVal [Nat.digitChar (n % 10)] = digitVal (Nat.digitChar (n % 10)) := by
        simp [digitsVal]
      rw [this, digitVal_digitChar _ (Nat.mod_lt _ (by norm_num))]
      omega
    · rw [if_neg h0, toDigitsCore_append, digitsVal_append]
      have hn : 0 < n := by omega
      have hlt : n / 10 < f := by
        have := Nat.div_lt_self hn (by norm_num : 1 < 10)
        omega
      rw [ih _ hlt, digitVal_digitChar _ (Nat.mod_lt _ (by norm_num))]
      omega

theorem asString_data (l : List Char) : (List.asString l).data = l := rfl

theorem natRepr_val (n : Nat) : digitsVal (Nat.repr n).data = n := by
  show digitsVal (Nat.toDigits 10 n) = n
  exact toDigitsCore_val (n + 1) n (Nat.lt_succ_self n)

theorem natRepr_inj {m n : Nat} (h : Nat.repr m = Nat.repr n) : m = n := by
  have := congrArg (fun s => digitsVal s.data) h
  simpa [natRepr_val] using this

theorem natRepr_digits (n : Nat) : ∀ c ∈ (Nat.repr n).data, isDigitCh c := by
  intro c hc
  exact toDigitsCore_digits (n + 1) n c hc

theorem intRepr_negSucc_data (m : Nat) :
    (Int.repr (Int.negSucc m)).data = '-' :: (Nat.repr (m + 1)).data := by
  show (("-" : String) ++ Nat.repr (m + 1)).data = _
  rw [String.data_append]
  rfl

theorem intRepr_inj {a b : Int} (h : Int.repr a = Int.repr b) : a = b := by
  have hd := congrArg String.data h
  cases a with
  | ofNat m =>
    cases b with
    | ofNat n =>
      have : Nat.repr m = Nat.repr n := h
      exact congrArg Int.ofNat (natRepr_inj this)
    | negSucc n =>
      rw [intRepr_negSucc_data] at hd
      have hmem : '-' ∈ (Nat.repr m).data := by
        show '-' ∈ (Int.repr (Int.ofNat m)).data
        rw [hd]
        exact List.mem_cons_self _ _
      exact absurd (natRepr_digits m '-' hmem) (by decide)
  | negSucc m =>
    cases b with
    | ofNat n =>
      rw [intRepr_negSucc_data] at hd
      have hmem : '-' ∈ (Nat.repr n).data := by
        show '-' ∈ (Int.repr (Int.ofNat n)).data
        rw [← hd]
        exact List.mem_cons_self _ _
      exact absurd (natRepr_digits n '-' hmem) (by decide)
    | negSucc n =>
      rw [intRepr_negSucc_data, intRepr_negSucc_data] at hd
      injection hd with _ htl
      have : Nat.repr (m + 1) = Nat.repr (n + 1) := congrArg List.asString htl
      have hmn : m = n := by
        have := natRepr_inj this
        omega
      rw [hmn]

theorem intRepr_no_comma (a : Int) : ',' ∉ (Int.repr a).data := by
  intro hmem
  cases a with
  | ofNat m =>
    exact absurd (natRepr_digits m ',' hmem) (by decide)
  | negSucc m =>
    rw [intRepr_negSucc_data] at hmem
    rcases List.mem_cons.mp hmem with h | h
    · exact absurd h (by decide)
    · exact absurd (natRepr_digits (m + 1) ',' h) (by decide)

theorem append_comma_eq :
    ∀ {a : List Char} {b : List Char} {c : List Char} {d : List Char},
      ',' ∉ a → ',' ∉ c → a ++ ',' :: b = c ++ ',' :: d → a = c ∧ b = d := by
  intro a
  induction a with
  | nil =>
    intro b c d _ hc h
    cases c with
    | nil => simpa using h
    | cons y ys =>
      simp at h
      exact absurd (h.1 ▸ List.mem_cons_self y ys) (fun hm => hc (h.1 ▸ hm))
  | cons x xs ih =>
    intro b c d ha hc h
    cases c with
    | nil =>
      simp at h
      exact absurd (h.1 ▸ List.mem_cons_self x xs) (fun hm => ha (h.1 ▸ hm))
    | cons y ys =>
      simp only [List.cons_append, List.cons.injEq] at h
      obtain ⟨hxy, hrest⟩ := h
      have hxs : ',' ∉ xs := fun hm => ha (List.mem_cons_of_mem _ hm)
      have hys : ',' ∉ ys := fun hm => hc (List.mem_cons_of_mem _ hm)
      have := ih hxs hys hrest
      exact ⟨by rw [hxy, this.1], this.2⟩

theorem toString_int (a : Int) : toString a = Int.repr a := by
  cases a <;> rfl

theorem cellKey_inj {c₁ c₂ : Cell} (h : cellKey c₁ = cellKey c₂) : c₁ = c₂ := by
  have hd := congrArg String.data h
  simp only [cellKey, toString_int, String.data_append] at hd
  rw [List.append_assoc, List.append_assoc] at hd
  have hsplit :
      (Int.repr c₁.i).data ++ ',' :: (Int.repr c₁.j).data =
      (Int.repr c₂.i).data ++ ',' :: (Int.repr c₂.j).data := by
    simpa using hd
  have := append_comma_eq (intRepr_no_comma c₁.i) (intRepr_no_comma c₂.i) hsplit
  have hi : c₁.i = c₂.i :=
    intRepr_inj (congrArg List.asString this.1)
  have hj : c₁.j = c₂.j :=
    intRepr_inj (congrArg List.asString this.2)
  cases c₁; cases c₂
  simp_all

/-! ### Association-list map lemmas -/

theorem lookupEntry_cons {α : Type} (e : String × α) (es : List (String × α)) (k : String) :
    lookupEntry (e :: es) k = if e.1 = k then some e.2 else lookupEntry es k := by
  by_cases h : e.1 = k <;> simp [lookupEntry, List.find?_cons, h]

theorem lookupEntry_setEntry_self {α : Type} (m : List (String × α)) (k : String) (v : α) :
    lookupEntry (setEntry m k v) k = some v := by
  induction m with
  | nil => simp [setEntry, lookupEntry_cons]
  | cons e es ih =>
    by_cases h : e.1 = k
    · simp [setEntry, h, lookupEntry_cons]
    · simp [setEntry, h, lookupEntry_cons, ih]

theorem lookupEntry_setEntry_ne {α : Type} (m : List (String × α)) (k k' : String) (v : α)
    (h : k' ≠ k) : lookupEntry (setEntry m k v) k' = lookupEntry m k' := by
  induction m with
  | nil =>
    simp [setEntry, lookupEntry_cons]
    exact fun hh => absurd hh.symm h
  | cons e es ih =>
    by_cases he : e.1 = k
    · rw [setEntry, if_pos he, lookupEntry_cons, lookupEntry_cons,
        if_neg (fun hh => h hh.symm), if_neg (he ▸ fun hh => h hh.symm)]
    · rw [setEntry, if_neg he, lookupEntry_cons, lookupEntry_cons, ih]

theorem setEntry_eq_self {α : Type} (m : List (String × α)) (k : String) (v : α)
    (h : lookupEntry m k = some v) : setEntry m k v = m := by
  induction m with
  | nil => simp [lookupEntry] at h
  | cons e es ih =>
    rw [lookupEntry_cons] at h
    by_cases he : e.1 = k
    · rw [if_pos he] at h
      rw [setEntry, if_pos he]
      cases e
      simp_all
    · rw [if_neg he] at h
      rw [setEntry, if_neg he, ih h]

theorem setEntry_setEntry {α : Type} (m : List (String × α)) (k : String) (v w : α) :
    setEntry (setEntry m k v) k w = setEntry m k w := by
  induction m with
  | nil => simp [setEntry]
  | cons e es ih =>
    by_cases he : e.1 = k
    · simp [setEntry, he]
    · simp [setEntry, he, ih]

theorem setEntry_of_lookup_none {α : Type} (m : List (String × α)) (k : String) (v : α)
    (h : lookupEntry m k = none) : setEntry m k v = m ++ [(k, v)] := by
  induction m with
  | nil => simp [setEntry]
  | cons e es ih =>
    rw [lookupEntry_cons] at h
    by_cases he : e.1 = k
    · rw [if_pos he] at h
      simp at h
    · rw [if_neg he] at h
      rw [setEntry, if_neg he, ih h]
      simp

theorem mem_setEntry {α : Type} {m : List (String × α)} {k : String} {v : α} {e : String × α}
    (h : e ∈ setEntry m k v) : e ∈ m ∨ e = (k, v) := by
  induction m with
  | nil => simp [setEntry] at h; simp [h]
  | cons e' es ih =>
    by_cases he : e'.1 = k
    · rw [setEntry, if_pos he] at h
      rcases List.mem_cons.mp h with h1 | h1
      · exact Or.inr h1
      · exact Or.inl (List.mem_cons_of_mem _ h1)
    · rw [setEntry, if_neg he] at h
      rcases List.mem_cons.mp h with h1 | h1
      · exact Or.inl (h1 ▸ List.mem_cons_self _ _)
      · rcases ih h1 with h2 | h2
        · exact Or.inl (List.mem_cons_of_mem _ h2)
        · exact Or.inr h2

theorem lookupEntry_mem {α : Type} {m : List (String × α)} {k : String} {v : α}
    (h : lookupEntry m k = some v) : (k, v) ∈ m ∨ ∃ e ∈ m, e.1 = k ∧ e.2 = v := by
  induction m with
  | nil => simp [lookupEntry] at h
  | cons e es ih =>
    rw [lookupEntry_cons] at h
    by_cases he : e.1 = k
    · rw [if_pos he] at h
      exact Or.inr ⟨e, List.mem_cons_self _ _, he, Option.some.inj h⟩
    · rw [if_neg he] at h
      rcases ih h with h1 | ⟨e', he', h1, h2⟩
      · exact Or.inl (List.mem_cons_of_mem _ h1)
      · exact Or.inr ⟨e', List.mem_cons_of_mem _ he', h1, h2⟩

theorem lookupEntry_eq_none {α : Type} (m : List (String × α)) (k : String) :
    lookupEntry m k = none ↔ k ∉ m.map (fun e => e.1) := by
  induction m with
  | nil => simp [lookupEntry]
  | cons e es ih =>
    rw [lookupEntry_cons]
    by_cases he : e.1 = k
    · simp [he]
    · rw [if_neg he, List.map_cons, List.mem_cons]
      constructor
      · intro h hh
        rcases hh with hh | hh
        · exact he hh.symm
        · exact (ih.mp h) hh
      · intro h
        exact ih.mpr (fun hh => h (Or.inr hh))

theorem setEntry_map_fst_of_none {α : Type} (m : List (String × α)) (k : String) (v : α)
    (h : lookupEntry m k = none) :
    (setEntry m k v).map (fun e => e.1) = m.map (fun e => e.1) ++ [k] := by
  rw [setEntry_of_lookup_none m k v h]
  simp

/-! ### Equational description of collect and deposit -/

theorem collectCoins_eq_none {cell : Cell} {s : GameState}
    (h : lookupEntry s.caches (cellKey cell) = none) : collectCoins cell s = s := by
  simp only [collectCoins]
  rw [h]

theorem collectCoins_eq_empty {cell : Cell} {s : GameState} {cache : Cache}
    (h : lookupEntry s.caches (cellKey cell) = some cache) (he : cache.coins = []) :
    collectCoins cell s = s := by
  simp only [collectCoins]
  rw [h]
  simp [he]

theorem collectCoins_eq_some {cell : Cell} {s : GameState} {cache : Cache}
    (h : lookupEntry s.caches (cellKey cell) = some cache) (hne : cache.coins ≠ []) :
    collectCoins cell s =
      { s with
        playerCoins := s.playerCoins ++ cache.coins
        caches := setEntry s.caches (cellKey cell) { cache with coins := [] } } := by
  simp only [collectCoins]
  rw [h]
  exact if_pos (by simpa using List.length_pos.mpr hne)

theorem depositCoins_eq_none {cell : Cell} {s : GameState}
    (h : lookupEntry s.caches (cellKey cell) = none) : depositCoins cell s = s := by
  simp only [depositCoins]
  rw [h]

theorem depositCoins_eq_empty {cell : Cell} {s : GameState} {cache : Cache}
    (h : lookupEntry s.caches (cellKey cell) = some cache) (he : s.playerCoins = []) :
    depositCoins cell s = s := by
  simp only [depositCoins]
  rw [h]
  simp [he]

theorem depositCoins_eq_some {cell : Cell} {s : GameState} {cache : Cache}
    (h : lookupEntry s.caches (cellKey cell) = some cache) (hne : s.playerCoins ≠ []) :
    depositCoins cell s =
      { s with
        playerCoins := []
        caches := setEntry s.caches (cellKey cell)
          { cache with coins := cache.coins ++ s.playerCoins } } := by
  simp only [depositCoins]
  rw [h]
  exact if_pos (by simpa using List.length_pos.mpr hne)

/-! ### Coin conservation lemmas -/

theorem cachesCoins_cons (e : String × Cache) (es : List (String × Cache)) :
    cachesCoins (e :: es) = e.2.coins ++ cachesCoins es := by
  simp [cachesCoins]

theorem cachesCoins_setEntry_perm (m : List (String × Cache)) (k : String) (v w : Cache)
    (h : lookupEntry m k = some w) :
    cachesCoins (setEntry m k v) ++ w.coins ~ v.coins ++ cachesCoins m := by
  induction m with
  | nil => simp [lookupEntry] at h
  | cons e es ih =>
    rw [lookupEntry_cons] at h
    by_cases he : e.1 = k
    · rw [if_pos he] at h
      have hw := Option.some.inj h
      subst hw
      rw [setEntry, if_pos he, cachesCoins_cons, cachesCoins_cons, List.append_assoc]
      exact (List.perm_append_comm).append_left v.coins
    · rw [if_neg he] at h
      rw [setEntry, if_neg he, cachesCoins_cons, cachesCoins_cons, List.append_assoc]
      have h1 : e.2.coins ++ (cachesCoins (setEntry es k v) ++ w.coins) ~
          e.2.coins ++ (v.coins ++ cachesCoins es) := (ih h).append_left e.2.coins
      refine h1.trans ?_
      rw [← List.append_assoc, ← List.append_assoc]
      exact (List.perm_append_comm).append_right (cachesCoins es)

theorem allCoins_collect_perm (cell : Cell) (s : GameState) :
    allCoins (collectCoins cell s) ~ allCoins s := by
  cases hl : lookupEntry s.caches (cellKey cell) with
  | none => rw [collectCoins_eq_none hl]
  | some cache =>
    by_cases hc : cache.coins = []
    · rw [collectCoins_eq_empty hl hc]
    · rw [collectCoins_eq_some hl hc]
      have hperm := cachesCoins_setEntry_perm s.caches (cellKey cell)
        { cache with coins := [] } cache hl
      simp only [allCoins, cachesCoins]
      simp only [allCoins, cachesCoins] at hperm
      rw [List.append_assoc]
      refine List.Perm.append_left s.playerCoins ?_
      refine (List.perm_append_comm).trans ?_
      simpa using hperm

theorem allCoins_deposit_perm (cell : Cell) (s : GameState) :
    allCoins (depositCoins cell s) ~ allCoins s := by
  cases hl : lookupEntry s.caches (cellKey cell) with
  | none => rw [depositCoins_eq_none hl]
  | some cache =>
    by_cases hc : s.playerCoins = []
    · rw [depositCoins_eq_empty hl hc]
    · rw [depositCoins_eq_some hl hc]
      have hperm := cachesCoins_setEntry_perm s.caches (cellKey cell)
        { cache with coins := cache.coins ++ s.playerCoins } cache hl
      simp only [allCoins, cachesCoins]
      simp only [allCoins, cachesCoins] at hperm
      have h2 : (cache.coins ++ s.playerCoins) ++
          (s.caches.map (fun e => e.2.coins)).flatten ~
          (s.playerCoins ++ (s.caches.map (fun e => e.2.coins)).flatten) ++ cache.coins := by
        refine ((List.perm_append_comm).append_right _).trans ?_
        rw [List.append_assoc, List.append_assoc]
        exact (List.perm_append_comm).append_left s.playerCoins
      have h3 := hperm.trans h2
      have h4 := (List.perm_append_right_iff cache.coins).mp h3
      simpa using h4

theorem allCoins_applyOp_perm (s : GameState) (op : Op) :
    allCoins (applyOp s op) ~ allCoins s := by
  cases op with
  | collect c => exact allCoins_collect_perm c s
  | deposit c => exact allCoins_deposit_perm c s

theorem allCoins_applyOps_perm (ops : List Op) (s : GameState) :
    allCoins (applyOps ops s) ~ allCoins s := by
  induction ops generalizing s with
  | nil => simp [applyOps]
  | cons op ops ih =>
    have h1 : applyOps (op :: ops) s = applyOps ops (applyOp s op) := rfl
    rw [h1]
    exact (ih (applyOp s op)).trans (allCoins_applyOp_perm s op)

/-! ### Floor arithmetic and latLngToCell lemmas -/

theorem TILE_DEGREES_pos : (0 : ℚ) < TILE_DEGREES := by norm_num [TILE_DEGREES]

theorem floor_offset (x : ℚ) (n : Int) :
    ⌊(x + (n : ℚ) * TILE_DEGREES) / TILE_DEGREES⌋ = ⌊x / TILE_DEGREES⌋ + n := by
  rw [add_div, mul_div_assoc, div_self (ne_of_gt TILE_DEGREES_pos), mul_one,
    Int.floor_add_int]

theorem floor_int_mul (n : Int) :
    ⌊((n : ℚ) * TILE_DEGREES) / TILE_DEGREES⌋ = n := by
  rw [mul_div_assoc, div_self (ne_of_gt TILE_DEGREES_pos), mul_one, Int.floor_intCast]

theorem tilesWF_lookup {tiles : List (String × Cell)} (h : tilesWF tiles)
    {i j : Int} {c : Cell} (hl : lookupEntry tiles (cellKey ⟨i, j⟩) = some c) :
    c = ⟨i, j⟩ := by
  rcases lookupEntry_mem hl with hm | ⟨e, he, h1, h2⟩
  · exact (cellKey_inj (h _ hm)).symm
  · rw [← h2]
    exact cellKey_inj ((h e he).symm.trans h1)

theorem latLngToCell_snd (lat lng : ℚ) (tiles : List (String × Cell)) :
    (latLngToCell lat lng tiles).2 =
      if (lookupEntry tiles
          (cellKey ⟨⌊lat / TILE_DEGREES⌋, ⌊lng / TILE_DEGREES⌋⟩)).isSome
      then tiles
      else setEntry tiles (cellKey ⟨⌊lat / TILE_DEGREES⌋, ⌊lng / TILE_DEGREES⌋⟩)
        ⟨⌊lat / TILE_DEGREES⌋, ⌊lng / TILE_DEGREES⌋⟩ := rfl

theorem latLngToCell_fst (lat lng : ℚ) (tiles : List (String × Cell))
    (h : tilesWF tiles) :
    (latLngToCell lat lng tiles).1 =
      ⟨⌊lat / TILE_DEGREES⌋, ⌊lng / TILE_DEGREES⌋⟩ := by
  show ((lookupEntry (latLngToCell lat lng tiles).2
      (cellKey ⟨⌊lat / TILE_DEGREES⌋, ⌊lng / TILE_DEGREES⌋⟩)).getD
      ⟨⌊lat / TILE_DEGREES⌋, ⌊lng / TILE_DEGREES⌋⟩) = _
  rw [latLngToCell_snd]
  by_cases hk : (lookupEntry tiles
      (cellKey ⟨⌊lat / TILE_DEGREES⌋, ⌊lng / TILE_DEGREES⌋⟩)).isSome
  · rw [if_pos hk]
    cases hl : lookupEntry tiles
        (cellKey ⟨⌊lat / TILE_DEGREES⌋, ⌊lng / TILE_DEGREES⌋⟩) with
    | none => rw [hl] at hk; simp at hk
    | some c =>
      rw [Option.getD_some]
      exact tilesWF_lookup h hl
  · rw [if_neg hk, lookupEntry_setEntry_self, Option.getD_some]

theorem tilesWF_setEntry {tiles : List (String × Cell)} (h : tilesWF tiles) (c : Cell) :
    tilesWF (setEntry tiles (cellKey c) c) := by
  intro e he
  rcases mem_setEntry he with h1 | h1
  · exact h e h1
  · rw [h1]

theorem tilesWF_latLngToCell (lat lng : ℚ) {tiles : List (String × Cell)}
    (h : tilesWF tiles) : tilesWF (latLngToCell lat lng tiles).2 := by
  rw [latLngToCell_snd]
  split
  · exact h
  · exact tilesWF_setEntry h _

theorem latLngToCell_snd_lookup (lat lng : ℚ) {tiles : List (String × Cell)}
    (h : tilesWF tiles) :
    lookupEntry (latLngToCell lat lng tiles).2
      (cellKey ⟨⌊lat / TILE_DEGREES⌋, ⌊lng / TILE_DEGREES⌋⟩) =
      some ⟨⌊lat / TILE_DEGREES⌋, ⌊lng / TILE_DEGREES⌋⟩ := by
  rw [latLngToCell_snd]
  by_cases hk : (lookupEntry tiles
      (cellKey ⟨⌊lat / TILE_DEGREES⌋, ⌊lng / TILE_DEGREES⌋⟩)).isSome
  · rw [if_pos hk]
    cases hl : lookupEntry tiles
        (cellKey ⟨⌊lat / TILE_DEGREES⌋, ⌊lng / TILE_DEGREES⌋⟩) with
    | none => rw [hl] at hk; simp at hk
    | some c => rw [tilesWF_lookup h hl]
  · rw [if_neg hk]
    exact lookupEntry_setEntry_self tiles _ _

theorem latLngToCell_stable (lat lng : ℚ) {tiles : List (String × Cell)}
    (h : tilesWF tiles) :
    latLngToCell lat lng (latLngToCell lat lng tiles).2 = latLngToCell lat lng tiles := by
  have h2 := latLngToCell_snd_lookup lat lng h
  have hsome : (lookupEntry (latLngToCell lat lng tiles).2
      (cellKey ⟨⌊lat / TILE_DEGREES⌋, ⌊lng / TILE_DEGREES⌋⟩)).isSome := by
    rw [h2]; rfl
  apply Prod.ext
  · rw [latLngToCell_fst lat lng _ (tilesWF_latLngToCell lat lng h),
      latLngToCell_fst lat lng tiles h]
  · rw [latLngToCell_snd, if_pos hsome]

/-! ### generateCaches lemmas -/

theorem generateCachesStep_eq (luck : LuckFn) (clat clng : ℚ) (i j : Int)
    (s : GameState) (hT : tilesWF s.knownTiles) :
    generateCachesStep luck clat clng i j s =
      { s with
        knownTiles := (latLngToCell (clat + (i : ℚ) * TILE_DEGREES)
          (clng + (j : ℚ) * TILE_DEGREES) s.knownTiles).2
        caches :=
          if (lookupEntry s.caches (cellKey (cellOf clat clng i j))).isNone ∧
              luck (spawnKey (cellOf clat clng i j)) < CACHE_SPAWN_PROBABILITY then
            setEntry s.caches (cellKey (cellOf clat clng i j))
              ⟨cellOf clat clng i j, generateCoinsForCell luck (cellOf clat clng i j)⟩
          else s.caches } := by
  have hc : (latLngToCell (clat + (i : ℚ) * TILE_DEGREES)
      (clng + (j : ℚ) * TILE_DEGREES) s.knownTiles).1 = cellOf clat clng i j := by
    rw [latLngToCell_fst _ _ _ hT]
    unfold cellOf
    rw [floor_offset, floor_offset]
  simp only [generateCachesStep, createCache]
  rw [hc]
  by_cases hcond : (lookupEntry s.caches (cellKey (cellOf clat clng i j))).isNone ∧
      luck (spawnKey (cellOf clat clng i j)) < CACHE_SPAWN_PROBABILITY
  · rw [if_pos hcond, if_pos hcond]
  · rw [if_neg hcond, if_neg hcond]

theorem step_knownTiles_WF (luck : LuckFn) (clat clng : ℚ) (i j : Int)
    (s : GameState) (hT : tilesWF s.knownTiles) :
    tilesWF (generateCachesStep luck clat clng i j s).knownTiles := by
  rw [generateCachesStep_eq luck clat clng i j s hT]
  exact tilesWF_latLngToCell _ _ hT

theorem step_caches (luck : LuckFn) (clat clng : ℚ) (i j : Int)
    (s : GameState) (hT : tilesWF s.knownTiles) :
    (generateCachesStep luck clat clng i j s).caches =
      if (lookupEntry s.caches (cellKey (cellOf clat clng i j))).isNone ∧
          luck (spawnKey (cellOf clat clng i j)) < CACHE_SPAWN_PROBABILITY then
        setEntry s.caches (cellKey (cellOf clat clng i j))
          ⟨cellOf clat clng i j, generateCoinsForCell luck (cellOf clat clng i j)⟩
      else s.caches := by
  rw [generateCachesStep_eq luck clat clng i j s hT]

theorem foldl_nested {α β γ : Type} (l₁ : List β) (l₂ : List γ) (f : α → β → γ → α) :
    ∀ s : α,
      l₁.foldl (fun s i => l₂.foldl (fun s j => f s i j) s) s =
      (l₁ ×ˢ l₂).foldl (fun s p => f s p.1 p.2) s := by
  induction l₁ with
  | nil => intro s; rfl
  | cons i is ih =>
    intro s
    rw [List.foldl_cons, List.product_cons, List.foldl_append, List.foldl_map, ih]

theorem generateCaches_eq_pairs (luck : LuckFn) (clat clng : ℚ) (s : GameState) :
    generateCaches luck clat clng s =
      offsetPairs.foldl (fun s p => generateCachesStep luck clat clng p.1 p.2 s) s := by
  unfold generateCaches offsetPairs
  exact foldl_nested _ _ _ s

theorem mem_neighborhoodOffsets {n : Int} :
    n ∈ neighborhoodOffsets ↔
      -(NEIGHBORHOOD_SIZE : Int) ≤ n ∧ n ≤ (NEIGHBORHOOD_SIZE : Int) := by
  unfold neighborhoodOffsets NEIGHBORHOOD_SIZE
  simp only [List.mem_map, List.mem_range]
  constructor
  · rintro ⟨k, hk, rfl⟩
    constructor <;> omega
  · intro h
    refine ⟨(n + 8).toNat, ?_, ?_⟩ <;> omega

theorem offsetPairs_cells_nodup (clat clng : ℚ) :
    (offsetPairs.map (fun p => cellOf clat clng p.1 p.2)).Nodup := by
  have hoff : neighborhoodOffsets.Nodup := by
    unfold neighborhoodOffsets
    refine List.Nodup.map ?_ (List.nodup_range _)
    intro a b hab
    simp only [NEIGHBORHOOD_SIZE] at hab
    omega
  have hp : offsetPairs.Nodup := hoff.product hoff
  refine hp.map ?_
  intro p q hpq
  simp only [cellOf, Cell.mk.injEq] at hpq
  obtain ⟨h1, h2⟩ := hpq
  cases p
  cases q
  simp only [Prod.mk.injEq]
  omega

theorem mem_offsetPairs_cells (clat clng : ℚ) (c : Cell) :
    c ∈ offsetPairs.map (fun p => cellOf clat clng p.1 p.2) ↔
      inNeighborhood clat clng c := by
  simp only [offsetPairs, List.mem_map]
  constructor
  · rintro ⟨p, hmem, rfl⟩
    obtain ⟨h1, h2⟩ := List.mem_product.mp hmem
    rw [mem_neighborhoodOffsets] at h1 h2
    simp only [inNeighborhood, cellOf]
    exact ⟨abs_le.mpr ⟨by omega, by omega⟩, abs_le.mpr ⟨by omega, by omega⟩⟩
  · intro h
    obtain ⟨h1, h2⟩ := h
    rw [abs_le] at h1 h2
    refine ⟨(c.i - ⌊clat / TILE_DEGREES⌋, c.j - ⌊clng / TILE_DEGREES⌋),
      List.mem_product.mpr ⟨?_, ?_⟩, ?_⟩
    · rw [mem_neighborhoodOffsets]
      omega
    · rw [mem_neighborhoodOffsets]
      omega
    · cases c
      simp only [cellOf, Cell.mk.injEq]
      omega

theorem foldSteps_lookup (luck : LuckFn) (clat clng : ℚ) :
    ∀ (L : List (Int × Int)) (s : GameState), tilesWF s.knownTiles →
      (L.map (fun p => cellOf clat clng p.1 p.2)).Nodup →
      ∀ c : Cell,
        lookupEntry
          (L.foldl (fun s p => generateCachesStep luck clat clng p.1 p.2 s) s).caches
          (cellKey c) =
        if c ∈ L.map (fun p => cellOf clat clng p.1 p.2) ∧
            lookupEntry s.caches (cellKey c) = none ∧
            luck (spawnKey c) < CACHE_SPAWN_PROBABILITY then
          some ⟨c, generateCoinsForCell luck c⟩
        else lookupEntry s.caches (cellKey c) := by
  intro L
  induction L with
  | nil =>
    intro s hT _ c
    simp
  | cons p L ih =>
    intro s hT hN c
    rw [List.foldl_cons]
    rw [List.map_cons] at hN
    have hN1 : cellOf clat clng p.1 p.2 ∉ L.map (fun q => cellOf clat clng q.1 q.2) :=
      (List.nodup_cons.mp hN).1
    have hN2 := (List.nodup_cons.mp hN).2
    have hT₁ : tilesWF (generateCachesStep luck clat clng p.1 p.2 s).knownTiles :=
      step_knownTiles_WF luck clat clng p.1 p.2 s hT
    have hcaches := step_caches luck clat clng p.1 p.2 s hT
    rw [ih (generateCachesStep luck clat clng p.1 p.2 s) hT₁ hN2 c]
    by_cases hcp : c = cellOf clat clng p.1 p.2
    · subst hcp
      rw [if_neg (fun hh => hN1 hh.1)]
      rw [hcaches]
      have hmemtrue : cellOf clat clng p.1 p.2 ∈
          List.map (fun q => cellOf clat clng q.1 q.2) (p :: L) := by
        rw [List.map_cons]
        exact List.mem_cons_self _ _
      by_cases hcond : lookupEntry s.caches (cellKey (cellOf clat clng p.1 p.2)) = none ∧
          luck (spawnKey (cellOf clat clng p.1 p.2)) < CACHE_SPAWN_PROBABILITY
      · rw [if_pos ⟨Option.isNone_iff_eq_none.mpr hcond.1, hcond.2⟩,
          lookupEntry_setEntry_self, if_pos ⟨hmemtrue, hcond⟩]
      · rw [if_neg (fun hh => hcond ⟨Option.isNone_iff_eq_none.mp hh.1, hh.2⟩),
          if_neg (fun hh => hcond ⟨hh.2.1, hh.2.2⟩)]
    · have hkey : cellKey c ≠ cellKey (cellOf clat clng p.1 p.2) :=
        fun hh => hcp (cellKey_inj hh)
      have hlk : lookupEntry (generateCachesStep luck clat clng p.1 p.2 s).caches
          (cellKey c) = lookupEntry s.caches (cellKey c) := by
        rw [hcaches]
        split
        · exact lookupEntry_setEntry_ne _ _ _ _ hkey
        · rfl
      simp only [hlk, List.map_cons, List.mem_cons, or_iff_right hcp]

/-! ### Persistence lemmas -/

theorem restoreCache_eq (st : GameState) (c : Cell) (coins : List Coin)
    (hT : tilesWF st.knownTiles) :
    restoreCache st ⟨(c.i : ℚ) * TILE_DEGREES, (c.j : ℚ) * TILE_DEGREES, coins⟩ =
      { st with
        knownTiles := (latLngToCell ((c.i : ℚ) * TILE_DEGREES)
          ((c.j : ℚ) * TILE_DEGREES) st.knownTiles).2
        caches := setEntry st.caches (cellKey c) ⟨c, coins⟩ } := by
  have hc : (latLngToCell ((c.i : ℚ) * TILE_DEGREES) ((c.j : ℚ) * TILE_DEGREES)
      st.knownTiles).1 = c := by
    rw [latLngToCell_fst _ _ _ hT, floor_int_mul, floor_int_mul]
  simp only [restoreCache, fromMemento]
  rw [hc]

theorem loadFold_spec (entries : List (String × Cache)) :
    ∀ st : GameState, tilesWF st.knownTiles →
      (∀ e ∈ entries, e.1 = cellKey e.2.cell) →
      ((st.caches ++ entries).map (fun e => e.1)).Nodup →
      (List.foldl restoreCache st (entries.map (fun e =>
          (⟨(e.2.cell.i : ℚ) * TILE_DEGREES, (e.2.cell.j : ℚ) * TILE_DEGREES,
            e.2.coins⟩ : SavedCache)))).caches = st.caches ++ entries ∧
      (List.foldl restoreCache st (entries.map (fun e =>
          (⟨(e.2.cell.i : ℚ) * TILE_DEGREES, (e.2.cell.j : ℚ) * TILE_DEGREES,
            e.2.coins⟩ : SavedCache)))).playerCoins = st.playerCoins ∧
      (List.foldl restoreCache st (entries.map (fun e =>
          (⟨(e.2.cell.i : ℚ) * TILE_DEGREES, (e.2.cell.j : ℚ) * TILE_DEGREES,
            e.2.coins⟩ : SavedCache)))).playerLat = st.playerLat ∧
      (List.foldl restoreCache st (entries.map (fun e =>
          (⟨(e.2.cell.i : ℚ) * TILE_DEGREES, (e.2.cell.j : ℚ) * TILE_DEGREES,
            e.2.coins⟩ : SavedCache)))).playerLng = st.playerLng ∧
      (List.foldl restoreCache st (entries.map (fun e =>
          (⟨(e.2.cell.i : ℚ) * TILE_DEGREES, (e.2.cell.j : ℚ) * TILE_DEGREES,
            e.2.coins⟩ : SavedCache)))).locationHistory = st.locationHistory := by
  induction entries with
  | nil =>
    intro st hT hE hND
    simp
  | cons e es ih =>
    intro st hT hE hND
    rw [List.map_cons, List.foldl_cons]
    have he1 : e.1 = cellKey e.2.cell := hE e (List.mem_cons_self _ _)
    have hnone : lookupEntry st.caches e.1 = none := by
      rw [lookupEntry_eq_none]
      rw [List.map_append, List.nodup_append] at hND
      intro hmem
      exact hND.2.2 hmem (by rw [List.map_cons]; exact List.mem_cons_self _ _)
    have hstep : restoreCache st
        ⟨(e.2.cell.i : ℚ) * TILE_DEGREES, (e.2.cell.j : ℚ) * TILE_DEGREES, e.2.coins⟩ =
        { st with
          knownTiles := (latLngToCell ((e.2.cell.i : ℚ) * TILE_DEGREES)
            ((e.2.cell.j : ℚ) * TILE_DEGREES) st.knownTiles).2
          caches := st.caches ++ [e] } := by
      rw [restoreCache_eq st e.2.cell e.2.coins hT]
      rw [← he1, setEntry_of_lookup_none st.caches e.1 _ hnone]
    rw [hstep]
    have hT' : tilesWF (latLngToCell ((e.2.cell.i : ℚ) * TILE_DEGREES)
        ((e.2.cell.j : ℚ) * TILE_DEGREES) st.knownTiles).2 :=
      tilesWF_latLngToCell _ _ hT
    have hE' : ∀ x ∈ es, x.1 = cellKey x.2.cell :=
      fun x hx => hE x (List.mem_cons_of_mem _ hx)
    have hND' : (((st.caches ++ [e]) ++ es).map (fun x => x.1)).Nodup := by
      rw [List.append_assoc]
      exact hND
    have := ih { st with
      knownTiles := (latLngToCell ((e.2.cell.i : ℚ) * TILE_DEGREES)
        ((e.2.cell.j : ℚ) * TILE_DEGREES) st.knownTiles).2
      caches := st.caches ++ [e] } hT' hE' hND'
    refine ⟨?_, this.2.1, this.2.2.1, this.2.2.2.1, this.2.2.2.2⟩
    rw [this.1, List.append_assoc]
    rfl

/-! ### Frame lemmas for collect and deposit -/

theorem collectCoins_fields (cell : Cell) (s : GameState) :
    (collectCoins cell s).playerLat = s.playerLat ∧
    (collectCoins cell s).playerLng = s.playerLng ∧
    (collectCoins cell s).locationHistory = s.locationHistory ∧
    (collectCoins cell s).knownTiles = s.knownTiles := by
  cases hl : lookupEntry s.caches (cellKey cell) with
  | none =>
    rw [collectCoins_eq_none hl]
    exact ⟨rfl, rfl, rfl, rfl⟩
  | some cache =>
    by_cases hc : cache.coins = []
    · rw [collectCoins_eq_empty hl hc]
      exact ⟨rfl, rfl, rfl, rfl⟩
    · rw [collectCoins_eq_some hl hc]
      exact ⟨rfl, rfl, rfl, rfl⟩

theorem depositCoins_fields (cell : Cell) (s : GameState) :
    (depositCoins cell s).playerLat = s.playerLat ∧
    (depositCoins cell s).playerLng = s.playerLng ∧
    (depositCoins cell s).locationHistory = s.locationHistory ∧
    (depositCoins cell s).knownTiles = s.knownTiles := by
  cases hl : lookupEntry s.caches (cellKey cell) with
  | none =>
    rw [depositCoins_eq_none hl]
    exact ⟨rfl, rfl, rfl, rfl⟩
  | some cache =>
    by_cases hc : s.playerCoins = []
    · rw [depositCoins_eq_empty hl hc]
      exact ⟨rfl, rfl, rfl, rfl⟩
    · rw [depositCoins_eq_some hl hc]
      exact ⟨rfl, rfl, rfl, rfl⟩

theorem collectCoins_other (cell : Cell) (s : GameState) (k : String)
    (hk : k ≠ cellKey cell) :
    lookupEntry (collectCoins cell s).caches k = lookupEntry s.caches k := by
  cases hl : lookupEntry s.caches (cellKey cell) with
  | none => rw [collectCoins_eq_none hl]
  | some cache =>
    by_cases hc : cache.coins = []
    · rw [collectCoins_eq_empty hl hc]
    · rw [collectCoins_eq_some hl hc]
      exact lookupEntry_setEntry_ne _ _ _ _ hk

theorem depositCoins_other (cell : Cell) (s : GameState) (k : String)
    (hk : k ≠ cellKey cell) :
    lookupEntry (depositCoins cell s).caches k = lookupEntry s.caches k := by
  cases hl : lookupEntry s.caches (cellKey cell) with
  | none => rw [depositCoins_eq_none hl]
  | some cache =>
    by_cases hc : s.playerCoins = []
    · rw [depositCoins_eq_empty hl hc]
    · rw [depositCoins_eq_some hl hc]
      exact lookupEntry_setEntry_ne _ _ _ _ hk

/-! ### The claims -/

/-- Exact-rational model of the save/load round trip: with idealised
arithmetic, loading a saved document reproduces the player's position,
the inventory, and the whole caches map verbatim for every well-formed
state.  This is the behaviour the spec intends; the program's binary64
arithmetic breaks it, as the binary64 analysis of the claims shows. -/
theorem save_load_roundtrip_model (luck : LuckFn) (s : GameState) (hWF : s.WF) :
    loadGameState luck (StoredDoc.valid (saveGameState s)) s =
      Except.ok (loadFromDoc (saveGameState s) s) ∧
    (loadFromDoc (saveGameState s) s).playerLat = s.playerLat ∧
    (loadFromDoc (saveGameState s) s).playerLng = s.playerLng ∧
    (loadFromDoc (saveGameState s) s).playerCoins = s.playerCoins ∧
    (loadFromDoc (saveGameState s) s).caches = s.caches := by
  have hT : tilesWF s.knownTiles := hWF.1
  have key := loadFold_spec s.caches
    { s with
      locationHistory := s.locationHistory ++ (saveGameState s).locationHistory
      caches := ([] : List (String × Cache)) }
    hT hWF.2.1 (by simpa using hWF.2.2)
  have heq : loadFromDoc (saveGameState s) s =
      List.foldl restoreCache
        { s with
          locationHistory := s.locationHistory ++ (saveGameState s).locationHistory
          caches := ([] : List (String × Cache)) }
        (s.caches.map (fun e =>
          (⟨(e.2.cell.i : ℚ) * TILE_DEGREES, (e.2.cell.j : ℚ) * TILE_DEGREES,
            e.2.coins⟩ : SavedCache))) := rfl
  rw [heq]
  refine ⟨rfl, key.2.2.1, key.2.2.2.1, key.2.1, ?_⟩
  rw [key.1]
  rfl

set_option maxRecDepth 100000 in
/-- C1 (code bug): in the program's binary64 arithmetic the save/load
round trip relocates caches instead of restoring them verbatim.  For a
cache at cell row 369899 — a row inside the very first spawn
neighborhood of the start position — saveGameState stores
lat = 369899 * 0.0001, which is exactly the double 36.9899, and on load
latLngToCell floors the reloaded quotient to 369898: the cache is
rebuilt at a different cell while its memento coins still name row
369899.  So the claimed exact reproduction of every cache's cell fails
on the code, although its idealised counterpart
save_load_roundtrip_model holds. -/
theorem c1_cache_relocation :
    savedLat 369899 = roundRat 369899 10000 ∧
    latLngToCellRow (savedLat 369899) = 369898 := by
  decide

/-- C2: every sequence of collect/deposit operations leaves the combined
coin collection of the system (all caches plus the inventory) a
permutation of what it was, so the total coin count is conserved, and if
every coin belonged to exactly one holder before (no duplicate coin
anywhere), the same holds after. -/
theorem c2_coin_conservation (s : GameState) (ops : List Op) :
    totalCoins (applyOps ops s) = totalCoins s ∧
    (coinPartition s → coinPartition (applyOps ops s)) ∧
    allCoins (applyOps ops s) ~ allCoins s := by
  have hperm := allCoins_applyOps_perm ops s
  exact ⟨hperm.length_eq, fun h => hperm.nodup_iff.mpr h, hperm⟩

/-- Witness for C2 at stateA with a collect-then-deposit sequence. -/
theorem c2_witness :
    totalCoins (applyOps [Op.collect cellA, Op.deposit cellA] stateA) =
      totalCoins stateA ∧
    coinPartition (applyOps [Op.collect cellA, Op.deposit cellA] stateA) := by
  have h := c2_coin_conservation stateA [Op.collect cellA, Op.deposit cellA]
  exact ⟨h.1, h.2.1 (by decide)⟩

/-- C3: collectCoins on an existing non-empty cache transfers the whole
coin list at once into the inventory (appended at its end) and leaves the
cache registered but empty; depositCoins on an existing cache with a
non-empty inventory transfers the whole inventory at once onto the end of
the cache's list and empties the inventory; with a missing cache or an
empty source either call returns the state unchanged, an explicit no-op
rather than an error, and no partial transfer ever occurs. -/
theorem c3_bulk_transfer (cell : Cell) (s : GameState) :
    (∀ cache : Cache, lookupEntry s.caches (cellKey cell) = some cache →
      cache.coins ≠ [] →
      (collectCoins cell s).playerCoins = s.playerCoins ++ cache.coins ∧
      lookupEntry (collectCoins cell s).caches (cellKey cell) =
        some { cache with coins := ([] : List Coin) }) ∧
    (lookupEntry s.caches (cellKey cell) = none → collectCoins cell s = s) ∧
    (∀ cache : Cache, lookupEntry s.caches (cellKey cell) = some cache →
      cache.coins = [] → collectCoins cell s = s) ∧
    (∀ cache : Cache, lookupEntry s.caches (cellKey cell) = some cache →
      s.playerCoins ≠ [] →
      (depositCoins cell s).playerCoins = [] ∧
      lookupEntry (depositCoins cell s).caches (cellKey cell) =
        some { cache with coins := cache.coins ++ s.playerCoins }) ∧
    (lookupEntry s.caches (cellKey cell) = none → depositCoins cell s = s) ∧
    (∀ cache : Cache, lookupEntry s.caches (cellKey cell) = some cache →
      s.playerCoins = [] → depositCoins cell s = s) := by
  refine ⟨?_, fun h => collectCoins_eq_none h, ?_, ?_, fun h => depositCoins_eq_none h, ?_⟩
  · intro cache h hne
    rw [collectCoins_eq_some h hne]
    exact ⟨rfl, lookupEntry_setEntry_self _ _ _⟩
  · intro cache h he
    exact collectCoins_eq_empty h he
  · intro cache h hne
    rw [depositCoins_eq_some h hne]
    exact ⟨rfl, lookupEntry_setEntry_self _ _ _⟩
  · intro cache h he
    exact depositCoins_eq_empty h he

/-- Witness for C3: collecting the one-coin cache of stateA fills the
inventory and empties the cache; collecting at an unoccupied cell is a
no-op. -/
theorem c3_witness :
    (collectCoins cellA stateA).playerCoins = [coinA, coinB] ∧
    lookupEntry (collectCoins cellA stateA).caches (cellKey cellA) =
      some ⟨cellA, []⟩ ∧
    collectCoins cellB stateA = stateA := by
  obtain ⟨hcol, _, _, _, _, _⟩ := c3_bulk_transfer cellA stateA
  obtain ⟨_, hnone, _, _, _, _⟩ := c3_bulk_transfer cellB stateA
  have hc := hcol ⟨cellA, [coinB]⟩ (by decide) (by decide)
  exact ⟨hc.1, hc.2, hnone (by decide)⟩

/-- C4 counterexample: at stateA the player already holds coinA; after
collectCoins then depositCoins at cellA the cache holds both coins and
the inventory is empty, so the cache does not end with its original coin
set and the inventory is not restored. -/
theorem c4_counterexample :
    ¬ (lookupEntry (depositCoins cellA (collectCoins cellA stateA)).caches
        (cellKey cellA) = some ⟨cellA, [coinB]⟩ ∧
      (depositCoins cellA (collectCoins cellA stateA)).playerCoins =
        stateA.playerCoins) := by
  decide

/-- C4 (amended): collect-then-deposit on the same cell restores the
original state whenever the player's inventory was empty beforehand: the
cache gets back exactly its original coin list and the inventory is empty
as before.  (Coins are never duplicated or lost in general, but an
initially non-empty inventory is swept into the cache by the deposit.) -/
theorem c4_roundtrip_empty_inventory (cell : Cell) (s : GameState)
    (h : s.playerCoins = []) :
    depositCoins cell (collectCoins cell s) = s := by
  cases hl : lookupEntry s.caches (cellKey cell) with
  | none =>
    rw [collectCoins_eq_none hl, depositCoins_eq_none hl]
  | some cache =>
    by_cases hc : cache.coins = []
    · rw [collectCoins_eq_empty hl hc, depositCoins_eq_empty hl h]
    · rw [collectCoins_eq_some hl hc]
      have hl2 : lookupEntry
          ({ s with
            playerCoins := s.playerCoins ++ cache.coins
            caches := setEntry s.caches (cellKey cell)
              { cache with coins := ([] : List Coin) } } : GameState).caches
          (cellKey cell) = some { cache with coins := ([] : List Coin) } :=
        lookupEntry_setEntry_self _ _ _
      have hplayer : ({ s with
          playerCoins := s.playerCoins ++ cache.coins
          caches := setEntry s.caches (cellKey cell)
            { cache with coins := ([] : List Coin) } } : GameState).playerCoins ≠ [] := by
        simp [h, hc]
      rw [depositCoins_eq_some hl2 hplayer]
      show ({ s with
        playerCoins := ([] : List Coin)
        caches := setEntry (setEntry s.caches (cellKey cell)
          { cache with coins := ([] : List Coin) }) (cellKey cell)
          { cache with
            coins := ([] : List Coin) ++ (s.playerCoins ++ cache.coins) } } : GameState) = s
      rw [setEntry_setEntry, h]
      show ({ s with
        playerCoins := ([] : List Coin)
        caches := setEntry s.caches (cellKey cell) cache } : GameState) = s
      rw [setEntry_eq_self s.caches (cellKey cell) cache hl, ← h]

/-- Witness for C4 (amended) at stateB, whose inventory is empty. -/
theorem c4_witness : depositCoins cellA (collectCoins cellA stateB) = stateB :=
  c4_roundtrip_empty_inventory cellA stateB (by decide)

/-- C5: the spawn decision and the generated coin list are pure functions
of the cell coordinates and the fixed salt strings: with one luck
function, running the cell computation against any two well-formed tile
registries (the same run, or a fresh process after a restart) yields the
same cell, the same spawn verdict, and the identical coin list. -/
theorem c5_determinism (luck : LuckFn) (lat lng : ℚ)
    (tiles₁ tiles₂ : List (String × Cell))
    (h₁ : tilesWF tiles₁) (h₂ : tilesWF tiles₂) :
    (latLngToCell lat lng tiles₁).1 = (latLngToCell lat lng tiles₂).1 ∧
    (luck (spawnKey (latLngToCell lat lng tiles₁).1) < CACHE_SPAWN_PROBABILITY ↔
      luck (spawnKey (latLngToCell lat lng tiles₂).1) < CACHE_SPAWN_PROBABILITY) ∧
    generateCoinsForCell luck (latLngToCell lat lng tiles₁).1 =
      generateCoinsForCell luck (latLngToCell lat lng tiles₂).1 := by
  have e1 := latLngToCell_fst lat lng tiles₁ h₁
  have e2 := latLngToCell_fst lat lng tiles₂ h₂
  rw [e1, e2]
  exact ⟨rfl, Iff.rfl, rfl⟩

/-- Witness for C5 with an empty registry versus one holding cellB. -/
theorem c5_witness :
    (latLngToCell 0 0 []).1 = (latLngToCell 0 0 [(cellKey cellB, cellB)]).1 ∧
    generateCoinsForCell luckHalf (latLngToCell 0 0 []).1 =
      generateCoinsForCell luckHalf (latLngToCell 0 0 [(cellKey cellB, cellB)]).1 := by
  have h := c5_determinism luckHalf 0 0 [] [(cellKey cellB, cellB)]
    (by decide) (by decide)
  exact ⟨h.1, h.2.2⟩

/-- Exact-rational model of the cache spawner: with idealised
arithmetic, generateCaches decides exactly the square neighborhood of
radius NEIGHBORHOOD_SIZE around the center — inside it a cache is
created at a cell iff the seeded hash for that cell is below the spawn
threshold and no cache already exists there, otherwise (and everywhere
outside) the caches map is left as it was — and every cache it creates
carries the coin list derived from the second hash over the same cell
coordinates, whose length is an integer in [0, 10).  The program's
binary64 offset sums drift off this square for some centers. -/
theorem generateCaches_spec_model (luck : LuckFn)
    (hluck : ∀ key : String, 0 ≤ luck key ∧ luck key < 1)
    (clat clng : ℚ) (s : GameState) (hT : tilesWF s.knownTiles) :
    (∀ c : Cell,
      lookupEntry (generateCaches luck clat clng s).caches (cellKey c) =
        if inNeighborhood clat clng c ∧
            lookupEntry s.caches (cellKey c) = none ∧
            luck (spawnKey c) < CACHE_SPAWN_PROBABILITY then
          some ⟨c, generateCoinsForCell luck c⟩
        else lookupEntry s.caches (cellKey c)) ∧
    (∀ c : Cell, (generateCoinsForCell luck c).length < 10) := by
  constructor
  · intro c
    rw [generateCaches_eq_pairs luck clat clng s]
    rw [foldSteps_lookup luck clat clng offsetPairs s hT
      (offsetPairs_cells_nodup clat clng) c]
    simp only [mem_offsetPairs_cells]
  · intro c
    have h := hluck (coinsKey c)
    have h1 : ⌊luck (coinsKey c) * 10⌋ < 10 := by
      apply Int.floor_lt.mpr
      push_cast
      linarith [h.2]
    simp only [generateCoinsForCell, List.length_map, List.length_range]
    omega

set_option maxRecDepth 400000 in
/-- C6 (code bug): generateCaches does not visit every cell of the
square neighborhood for every center.  In binary64 arithmetic at center
lat 36.9 (center cell row 368999), the row offset -8 lands on row 368992
instead of 368991, and row 368991 = 368999 - 8 is produced by no offset
of the loop at all, so for that center an entire row of the square can
never spawn caches however the hash comes out.  The claimed
visit-every-cell / spawn-iff characterisation fails on the code; its
idealised counterpart generateCaches_spec_model holds. -/
theorem c6_neighborhood_gap :
    latLngToCellRow (roundRat 369 10) = 368999 ∧
    visitedRow (roundRat 369 10) (-8) = 368992 ∧
    ¬ (368991 : Int) ∈ neighborhoodOffsets.map (visitedRow (roundRat 369 10)) := by
  decide

/-- Exact-rational model of the grid mapper: with idealised arithmetic,
latLngToCell returns the cell whose coordinates are the floors of lat
and lng divided by the tile size, and an immediately repeated call with
the same coordinates returns the identical cell with the registry
unchanged, since the cell is registered in the lookup table on first
sight.  The floor formula is an idealisation: the program floors the
correctly rounded binary64 quotient, which differs at some inputs. -/
theorem latLngToCell_spec_model (lat lng : ℚ) (tiles : List (String × Cell))
    (h : tilesWF tiles) :
    (latLngToCell lat lng tiles).1 =
      ⟨⌊lat / TILE_DEGREES⌋, ⌊lng / TILE_DEGREES⌋⟩ ∧
    latLngToCell lat lng (latLngToCell lat lng tiles).2 =
      ((latLngToCell lat lng tiles).1, (latLngToCell lat lng tiles).2) := by
  refine ⟨latLngToCell_fst lat lng tiles h, ?_⟩
  rw [latLngToCell_stable lat lng h]

set_option maxRecDepth 100000 in
/-- C7 (code bug): latLngToCell does not always return the cell with
i = floor(lat / tileSize).  The program floors the correctly rounded
binary64 quotient, and at lat = 36.9899 — a value its own save path
writes for cell row 369899 — that floor is 369898, although
floor(36.9899 / 0.0001) = 369899.  So the claim's universal floor
formula fails on the code; the formula over exact arithmetic, together
with the repeated-call stability of the registered cell, is
latLngToCell_spec_model. -/
theorem c7_floor_divergence :
    latLngToCellRow (roundRat 369899 10000) = 369898 ∧
    ⌊(36.9899 : ℚ) / TILE_DEGREES⌋ = 369899 := by
  constructor
  · decide
  · rw [TILE_DEGREES]
    norm_num

/-- C8 counterexample: a present but malformed document does not fall
back to fresh world generation; loadGameState surfaces the JSON.parse
error instead of returning the freshly generated world. -/
theorem c8_counterexample :
    loadGameState luckHalf (StoredDoc.malformed "oops") stateA ≠
      Except.ok (generateCaches luckHalf stateA.playerLat stateA.playerLng stateA) := by
  simp [loadGameState]

/-- C8 (amended): an absent document is treated as no save and
loadGameState falls back to fresh cache generation around the current
player position with no partial recovery; a present but malformed
document instead makes the uncaught JSON.parse error propagate, with no
fallback generation. -/
theorem c8_load_fallback (luck : LuckFn) (s : GameState) (raw : String) :
    loadGameState luck StoredDoc.missing s =
      Except.ok (generateCaches luck s.playerLat s.playerLng s) ∧
    loadGameState luck (StoredDoc.malformed raw) s =
      Except.error "SyntaxError: JSON.parse: unexpected input" :=
  ⟨rfl, rfl⟩

/-- C9: with tile size 0.0001, latLngToCell maps lat 36.9895 and
lng -122.0628 to the cell i = 369895 and j = -1220628; the embedding's
exact rational quotients agree with the source's float evaluation at
these inputs. -/
theorem c9_example_cell :
    (latLngToCell (36.9895 : ℚ) (-122.0628 : ℚ) []).1 = ⟨369895, -1220628⟩ := by
  rw [latLngToCell_fst _ _ _ (by decide)]
  have h1 : ⌊(36.9895 : ℚ) / TILE_DEGREES⌋ = 369895 := by
    rw [TILE_DEGREES]
    norm_num
  have h2 : ⌊(-122.0628 : ℚ) / TILE_DEGREES⌋ = -1220628 := by
    rw [TILE_DEGREES]
    norm_num
  rw [h1, h2]

/-- C10: collectCoins and depositCoins leave the player position, the
location history, the tile registry and every cache at any other cell
unchanged, and when no cache exists at the addressed cell they leave the
entire game state unchanged. -/
theorem c10_frame (cell : Cell) (s : GameState) :
    (collectCoins cell s).playerLat = s.playerLat ∧
    (collectCoins cell s).playerLng = s.playerLng ∧
    (collectCoins cell s).locationHistory = s.locationHistory ∧
    (collectCoins cell s).knownTiles = s.knownTiles ∧
    (depositCoins cell s).playerLat = s.playerLat ∧
    (depositCoins cell s).playerLng = s.playerLng ∧
    (depositCoins cell s).locationHistory = s.locationHistory ∧
    (depositCoins cell s).knownTiles = s.knownTiles ∧
    (∀ c' : Cell, c' ≠ cell →
      lookupEntry (collectCoins cell s).caches (cellKey c') =
        lookupEntry s.caches (cellKey c') ∧
      lookupEntry (depositCoins cell s).caches (cellKey c') =
        lookupEntry s.caches (cellKey c')) ∧
    (lookupEntry s.caches (cellKey cell) = none →
      collectCoins cell s = s ∧ depositCoins cell s = s) := by
  obtain ⟨h1, h2, h3, h4⟩ := collectCoins_fields cell s
  obtain ⟨h5, h6, h7, h8⟩ := depositCoins_fields cell s
  refine ⟨h1, h2, h3, h4, h5, h6, h7, h8, ?_, ?_⟩
  · intro c' hc'
    have hk : cellKey c' ≠ cellKey cell := fun hh => hc' (cellKey_inj hh)
    exact ⟨collectCoins_other cell s _ hk, depositCoins_other cell s _ hk⟩
  · intro hnone
    exact ⟨collectCoins_eq_none hnone, depositCoins_eq_none hnone⟩

/-- Witness for C10: collecting at cellA leaves the cache slot of cellB
alone, and collect/deposit at the cache-free cellB are no-ops. -/
theorem c10_witness :
    lookupEntry (collectCoins cellA stateA).caches (cellKey cellB) =
      lookupEntry stateA.caches (cellKey cellB) ∧
    collectCoins cellB stateA = stateA ∧
    depositCoins cellB stateA = stateA := by
  obtain ⟨-, -, -, -, -, -, -, -, hother, -⟩ := c10_frame cellA stateA
  obtain ⟨-, -, -, -, -, -, -, -, -, hnone⟩ := c10_frame cellB stateA
  have ho := hother cellB (by decide)
  have hn := hnone (by decide)
  exact ⟨ho.1, hn.1, hn.2⟩

end Geocache
